import Mathlib

/-!
Verification of the intent-routing and tool-dispatch core of the Addy
voice-assistant repository.

The Python sources are shallowly embedded:
* Python `dict` (string keys, insertion-ordered, unique keys) is modelled as
  an association list `List (String × α)` with first-occurrence lookup,
  in-place replacement on assignment, and append for fresh keys.
* Python JSON-like dynamic values are modelled by the inductive type `Json`.
* Python string operations used by the code (`strip`, `lower`, `startswith`,
  `endswith`, slicing) are modelled by executable functions on the character
  list of a `String`.
* Fallible Python code is modelled with `Except`; a function that the source
  guarantees cannot raise is embedded as a total Lean function.
-/

namespace Addy

/-- Lookup in a Python dict modelled as an association list:
the value of the first entry with the given key. -/
def dictGet? {α : Type} (m : List (String × α)) (k : String) : Option α :=
  match m with
  | [] => none
  | (k', v) :: rest => if k' = k then some v else dictGet? rest k

/-- Python `k in d` membership test on a dict. -/
def dictContains {α : Type} (m : List (String × α)) (k : String) : Bool :=
  (dictGet? m k).isSome

/-- Python `d[k] = v`: replace the first entry with key `k` in place,
or append a fresh entry at the end (insertion order). -/
def dictSet {α : Type} (m : List (String × α)) (k : String) (v : α) :
    List (String × α) :=
  match m with
  | [] => [(k, v)]
  | (k', v') :: rest => if k' = k then (k, v) :: rest else (k', v') :: dictSet rest k v

/-- Python `del d[k]`: remove the first entry with key `k` (dicts have
unique keys, so this is the only entry). -/
def dictErase {α : Type} (m : List (String × α)) (k : String) :
    List (String × α) :=
  match m with
  | [] => []
  | (k', v') :: rest => if k' = k then rest else (k', v') :: dictErase rest k

/-- The keys of a dict, in order. -/
def dictKeys {α : Type} (m : List (String × α)) : List String :=
  m.map Prod.fst

theorem dictGet?_eq_none_of_not_mem_keys {α : Type} (m : List (String × α)) (k : String)
    (h : k ∉ dictKeys m) : dictGet? m k = none := by
  induction m with
  | nil => simp [dictGet?]
  | cons hd tl ih =>
    obtain ⟨k', v'⟩ := hd
    simp [dictKeys] at h
    push_neg at h
    have hk : k' ≠ k := fun he => h.1 he.symm
    simp [dictGet?, hk]
    exact ih (by simp [dictKeys]; exact h.2)

theorem dictGet?_dictSet_self {α : Type} (m : List (String × α)) (k : String) (v : α) :
    dictGet? (dictSet m k v) k = some v := by
  induction m with
  | nil => simp [dictSet, dictGet?]
  | cons hd tl ih =>
    obtain ⟨k', v'⟩ := hd
    by_cases h : k' = k <;> simp [dictSet, dictGet?, h, ih]

theorem dictGet?_dictSet_ne {α : Type} (m : List (String × α)) (k j : String) (v : α)
    (h : j ≠ k) : dictGet? (dictSet m k v) j = dictGet? m j := by
  have h' : k ≠ j := h.symm
  induction m with
  | nil => simp [dictSet, dictGet?, h']
  | cons hd tl ih =>
    obtain ⟨k', v'⟩ := hd
    by_cases hk : k' = k
    · subst hk
      simp [dictSet, dictGet?, h']
    · by_cases hj : k' = j
      · subst hj
        simp [dictSet, dictGet?, h, hk]
      · simp [dictSet, dictGet?, hk, hj, ih]

theorem dictSet_eq_self_of_get {α : Type} (m : List (String × α)) (k : String) (v : α)
    (h : dictGet? m k = some v) : dictSet m k v = m := by
  induction m with
  | nil => simp [dictGet?] at h
  | cons hd tl ih =>
    obtain ⟨k', v'⟩ := hd
    by_cases hk : k' = k
    · subst hk
      simp [dictGet?] at h
      simp [dictSet, h]
    · simp [dictGet?, hk] at h
      simp [dictSet, hk, ih h]

theorem mem_dictKeys_dictSet {α : Type} (m : List (String × α)) (k j : String) (v : α) :
    j ∈ dictKeys (dictSet m k v) ↔ j = k ∨ j ∈ dictKeys m := by
  induction m with
  | nil => simp [dictSet, dictKeys]
  | cons hd tl ih =>
    obtain ⟨k', v'⟩ := hd
    by_cases hk : k' = k
    · subst hk
      simp [dictSet, dictKeys]
    · simp [dictSet, dictKeys, hk] at ih ⊢
      tauto

theorem dictKeys_dictSet_nodup {α : Type} (m : List (String × α)) (k : String) (v : α)
    (h : (dictKeys m).Nodup) : (dictKeys (dictSet m k v)).Nodup := by
  induction m with
  | nil => simp [dictSet, dictKeys]
  | cons hd tl ih =>
    obtain ⟨k', v'⟩ := hd
    rw [show dictKeys ((k', v') :: tl) = k' :: dictKeys tl from rfl] at h
    rw [List.nodup_cons] at h
    obtain ⟨hnot, htl⟩ := h
    by_cases hk : k' = k
    · subst hk
      have : dictSet ((k', v') :: tl) k' v = (k', v) :: tl := by simp [dictSet]
      rw [this]
      rw [show dictKeys ((k', v) :: tl) = k' :: dictKeys tl from rfl]
      exact List.nodup_cons.2 ⟨hnot, htl⟩
    · have : dictSet ((k', v') :: tl) k v = (k', v') :: dictSet tl k v := by
        simp [dictSet, hk]
      rw [this]
      rw [show dictKeys ((k', v') :: dictSet tl k v) = k' :: dictKeys (dictSet tl k v)
        from rfl]
      refine List.nodup_cons.2 ⟨?_, ih htl⟩
      intro hc
      rcases (mem_dictKeys_dictSet tl k k' v).1 hc with hc | hc
      · exact hk hc
      · exact hnot hc

theorem dictGet?_eq_some_of_mem_nodup {α : Type} (m : List (String × α)) (k : String)
    (v : α) (hnd : (dictKeys m).Nodup) (hmem : (k, v) ∈ m) :
    dictGet? m k = some v := by
  induction m with
  | nil => simp at hmem
  | cons hd tl ih =>
    obtain ⟨k', v'⟩ := hd
    rw [show dictKeys ((k', v') :: tl) = k' :: dictKeys tl from rfl] at hnd
    rw [List.nodup_cons] at hnd
    rcases List.mem_cons.1 hmem with hmem | hmem
    · rw [Prod.mk.injEq] at hmem
      obtain ⟨h1, h2⟩ := hmem
      subst h1; subst h2
      simp [dictGet?]
    · have hk : k' ≠ k := by
        intro h
        subst h
        exact hnd.1 (List.mem_map.2 ⟨(k', v), hmem, rfl⟩)
      simp [dictGet?, hk]
      exact ih hnd.2 hmem

theorem mem_of_dictGet?_eq_some {α : Type} (m : List (String × α)) (k : String)
    (v : α) (h : dictGet? m k = some v) : (k, v) ∈ m := by
  induction m with
  | nil => simp [dictGet?] at h
  | cons hd tl ih =>
    obtain ⟨k', v'⟩ := hd
    by_cases hk : k' = k
    · subst hk
      simp [dictGet?] at h
      simp [h]
    · simp [dictGet?, hk] at h
      exact List.mem_cons_of_mem _ (ih h)

theorem dictGet?_dictErase {α : Type} (m : List (String × α)) (k j : String)
    (hnd : (dictKeys m).Nodup) :
    dictGet? (dictErase m k) j = if j = k then none else dictGet? m j := by
  induction m with
  | nil => simp [dictErase, dictGet?]
  | cons hd tl ih =>
    obtain ⟨k', v'⟩ := hd
    rw [show dictKeys ((k', v') :: tl) = k' :: dictKeys tl from rfl] at hnd
    rw [List.nodup_cons] at hnd
    obtain ⟨hnot, htl⟩ := hnd
    by_cases hk : k' = k
    · subst hk
      by_cases hj : j = k'
      · subst hj
        have he : dictErase ((j, v') :: tl) j = tl := by simp [dictErase]
        rw [he, dictGet?_eq_none_of_not_mem_keys tl j hnot]
        simp
      · have hj' : k' ≠ j := fun h => hj h.symm
        simp [dictErase, dictGet?, hj, hj']
    · by_cases hj : j = k
      · subst hj
        have hj' : k' ≠ j := hk
        simp [dictErase, dictGet?, hk, hj', ih htl]
      · by_cases hj2 : k' = j
        · subst hj2
          simp [dictErase, dictGet?, hk, hj]
        · simp [dictErase, dictGet?, hk, hj, hj2, ih htl]

theorem dictErase_sublist {α : Type} (m : List (String × α)) (k : String) :
    (dictErase m k).Sublist m := by
  induction m with
  | nil => simp [dictErase]
  | cons hd tl ih =>
    obtain ⟨k', v'⟩ := hd
    by_cases hk : k' = k
    · simp [dictErase, hk]
    · simpa [dictErase, hk] using ih.cons₂ (k', v')

theorem dictKeys_dictErase_nodup {α : Type} (m : List (String × α)) (k : String)
    (h : (dictKeys m).Nodup) : (dictKeys (dictErase m k)).Nodup :=
  ((dictErase_sublist m k).map Prod.fst).nodup h

/-! ### Python string operations

Executable models of the Python `str` methods the embedded code uses,
defined on the character list so concrete instances evaluate. -/

/-- Python `s.strip()`: remove leading and trailing whitespace. -/
def pyStrip (s : String) : String :=
  ⟨((s.data.dropWhile (·.isWhitespace)).reverse.dropWhile (·.isWhitespace)).reverse⟩

/-- Python `s.lower()` (modelled per character). -/
def pyLower (s : String) : String := ⟨s.data.map Char.toLower⟩

/-- Python `s.startswith(pre)`. -/
def strStartsWith (s pre : String) : Bool := pre.data.isPrefixOf s.data

/-- Python `s.endswith(suf)`. -/
def strEndsWith (s suf : String) : Bool := suf.data.isSuffixOf s.data

/-- Python slicing `s[n:]`. -/
def strDrop (s : String) (n : Nat) : String := ⟨s.data.drop n⟩

/-- Python slicing `s[:-n]` (for `n ≤ len(s)`; drop from the right). -/
def strDropRight (s : String) (n : Nat) : String := ⟨(s.data.reverse.drop n).reverse⟩

/-! ### Dynamic (JSON-like) Python values -/

/-- A Python/JSON dynamic value: `None`, booleans, numbers (modelled as
integers), strings, lists and string-keyed dicts. -/
inductive Json where
  | null : Json
  | bool (b : Bool) : Json
  | num (n : Int) : Json
  | str (s : String) : Json
  | arr (xs : List Json) : Json
  | obj (m : List (String × Json)) : Json

/-- Python truthiness of a dynamic value (`bool(x)`): `None`, `False`, `0`,
`""`, `[]` and `{}` are falsy, everything else truthy. -/
def Json.truthy : Json → Bool
  | .null => false
  | .bool b => b
  | .num n => n != 0
  | .str s => s != ""
  | .arr xs => !xs.isEmpty
  | .obj m => !m.isEmpty

/-- Python `x == lit` where `lit` is a string literal: only a string value
with the same characters compares equal. -/
def Json.eqStr : Json → String → Bool
  | .str s, t => s == t
  | _, _ => false

/-- Python `isinstance(x, dict)`. -/
def Json.isDict : Json → Bool
  | .obj _ => true
  | _ => false

/-- Python `str(x)`. The renderings of container and `None`/bool values are
abstracted (no verified property depends on them); for strings `str` is the
identity, which is the case every claim exercises. -/
def pyStr : Json → String
  | .null => "None"
  | .bool true => "True"
  | .bool false => "False"
  | .num n => toString n
  | .str s => s
  | .arr _ => "<list>"
  | .obj _ => "<dict>"

/-! ### Tool Registry (`src/addy_core/tools/tool_manager.py`)

`ToolManager` holds `self.tools : Dict[str, BaseTool]` and
`self.intent_tool_map : Dict[str, str]`.  A `BaseTool`
(`src/addy_core/tools/base_tool.py`) is embedded as the data the registry
reads through the handler contract: its supported-intent list, its `enabled`
flag, and its `execute` body, which either returns a result string or raises
(modelled as `Except String String`, the error carrying `str(e)`). -/

structure Tool where
  supported_intents : List String
  enabled : Bool
  execute : String → List (String × Json) → String → Except String String

/-- `BaseTool.can_handle`: `self.enabled and intent in self.get_supported_intents()`. -/
def Tool.can_handle (t : Tool) (intent : String) : Bool :=
  t.enabled && t.supported_intents.contains intent

/-- `BaseTool.set_enabled`. -/
def Tool.set_enabled (t : Tool) (b : Bool) : Tool := { t with enabled := b }

structure ToolManagerState where
  tools : List (String × Tool)
  intent_tool_map : List (String × String)

/-- One conflict warning logged by `ToolManager.register_tool` when an intent
mapping is overwritten (the Chinese log line naming the intent, the previously
registered tool and the overwriting tool). -/
structure ConflictLog where
  intent : String
  prior_tool : String
  new_tool : String

/-- The `for intent in tool.get_supported_intents()` loop of
`ToolManager.register_tool` (tool_manager.py lines 71-74): warn if the intent
is already mapped, then overwrite `intent_to_tool_map[intent] = tool_name`. -/
def registerIntentsLoop (tool_name : String) (intents : List String)
    (map : List (String × String)) (logs : List ConflictLog) :
    List (String × String) × List ConflictLog :=
  match intents with
  | [] => (map, logs)
  | i :: rest =>
    let logs' := match dictGet? map i with
      | some prior => logs ++ [⟨i, prior, tool_name⟩]
      | none => logs
    registerIntentsLoop tool_name rest (dictSet map i tool_name) logs'

/-- `ToolManager.register_tool` (tool_manager.py lines 59-79): skip when the
tool reports disabled, otherwise store the tool and map each supported intent
to it, logging (never raising) on overwrite.  Returns the new state and the
conflict warnings logged. -/
def register_tool (s : ToolManagerState) (tool_name : String) (tool : Tool) :
    ToolManagerState × List ConflictLog :=
  if !tool.enabled then (s, [])
  else
    let tools' := dictSet s.tools tool_name tool
    let r := registerIntentsLoop tool_name tool.supported_intents s.intent_tool_map []
    ({ tools := tools', intent_tool_map := r.1 }, r.2)

/-- `ToolManager.get_tool_for_intent` (the registry's `resolve`). -/
def get_tool_for_intent (s : ToolManagerState) (intent : String) : Option String :=
  dictGet? s.intent_tool_map intent

/-- `ToolManager.execute_intent` (tool_manager.py lines 102-138).  The Python
body is wrapped in `try/except Exception`, so the method never raises; the
embedding is a total function and a raising handler surfaces as the
`execution_error:` sentinel.  The method reads but never writes registry
state, which the embedding reflects by not returning a state. -/
def execute_intent (s : ToolManagerState) (intent : String)
    (entities : List (String × Json)) (original_text : String) : String :=
  match dictGet? s.intent_tool_map intent with
  | none => "unsupported_intent: " ++ intent
  | some tool_name =>
    if tool_name = "" then "unsupported_intent: " ++ intent
    else match dictGet? s.tools tool_name with
    | none => "tool_not_found: " ++ tool_name
    | some tool =>
      if !tool.can_handle intent then "tool_cannot_handle: " ++ intent
      else
        match tool.execute intent entities original_text with
        | .error e => "execution_error: " ++ e
        | .ok result => result

/-- `ToolManager.enable_tool` (tool_manager.py lines 161-175): flip the flag
and re-map every supported intent to this tool. -/
def enable_tool (s : ToolManagerState) (tool_name : String) :
    ToolManagerState × Bool :=
  match dictGet? s.tools tool_name with
  | none => (s, false)
  | some tool =>
    let tool' := tool.set_enabled true
    let tools' := dictSet s.tools tool_name tool'
    let map' := tool'.supported_intents.foldl (fun m i => dictSet m i tool_name)
      s.intent_tool_map
    ({ tools := tools', intent_tool_map := map' }, true)

/-- `ToolManager.disable_tool` (tool_manager.py lines 177-196): flip the flag,
collect the intents currently mapped to this tool, and delete those entries. -/
def disable_tool (s : ToolManagerState) (tool_name : String) :
    ToolManagerState × Bool :=
  match dictGet? s.tools tool_name with
  | none => (s, false)
  | some tool =>
    let tool' := tool.set_enabled false
    let tools' := dictSet s.tools tool_name tool'
    let intents_to_remove :=
      (s.intent_tool_map.filter (fun kv => kv.2 == tool_name)).map Prod.fst
    let map' := intents_to_remove.foldl dictErase s.intent_tool_map
    ({ tools := tools', intent_tool_map := map' }, true)

/-- `ToolManager._initialize_tools` registers a fixed list of tools in order;
this folds `register_tool` over such a list. -/
def registerMany (s : ToolManagerState) (ts : List (String × Tool)) :
    ToolManagerState :=
  ts.foldl (fun s nt => (register_tool s nt.1 nt.2).1) s

theorem dictGet?_registerIntentsLoop (tool_name : String) (intents : List String)
    (map : List (String × String)) (logs : List ConflictLog) (j : String) :
    dictGet? (registerIntentsLoop tool_name intents map logs).1 j =
      if j ∈ intents then some tool_name else dictGet? map j := by
  induction intents generalizing map logs with
  | nil => simp [registerIntentsLoop]
  | cons i rest ih =>
    rw [registerIntentsLoop]
    rw [ih]
    by_cases hj : j ∈ rest
    · simp [hj]
    · by_cases hji : j = i
      · subst hji
        simp [hj, dictGet?_dictSet_self]
      · simp [hj, hji, dictGet?_dictSet_ne _ _ _ _ hji]

theorem nodup_registerIntentsLoop (tool_name : String) (intents : List String)
    (map : List (String × String)) (logs : List ConflictLog)
    (h : (dictKeys map).Nodup) :
    (dictKeys (registerIntentsLoop tool_name intents map logs).1).Nodup := by
  induction intents generalizing map logs with
  | nil => simpa [registerIntentsLoop] using h
  | cons i rest ih =>
    rw [registerIntentsLoop]
    exact ih _ _ (dictKeys_dictSet_nodup _ _ _ h)

theorem mem_logs_registerIntentsLoop (tool_name : String) (intents : List String)
    (map : List (String × String)) (logs : List ConflictLog) (c : ConflictLog)
    (h : c ∈ logs) : c ∈ (registerIntentsLoop tool_name intents map logs).2 := by
  induction intents generalizing map logs with
  | nil => simpa [registerIntentsLoop] using h
  | cons i rest ih =>
    rw [registerIntentsLoop]
    cases hmi : dictGet? map i with
    | none => simp only [hmi]; exact ih _ _ h
    | some prior =>
      simp only [hmi]
      exact ih _ _ (List.mem_append_left _ h)

theorem conflict_logged_registerIntentsLoop (tool_name : String)
    (intents : List String) (map : List (String × String)) (logs : List ConflictLog)
    (i : String) (hmem : i ∈ intents) (hmap : (dictGet? map i).isSome) :
    ∃ c ∈ (registerIntentsLoop tool_name intents map logs).2, c.intent = i := by
  induction intents generalizing map logs with
  | nil => simp at hmem
  | cons hd rest ih =>
    rw [registerIntentsLoop]
    by_cases hhd : hd = i
    · subst hhd
      obtain ⟨prior, hp⟩ := Option.isSome_iff_exists.1 hmap
      simp only [hp]
      refine ⟨⟨hd, prior, tool_name⟩, ?_, rfl⟩
      exact mem_logs_registerIntentsLoop _ _ _ _ _ (by simp)
    · have hmem' : i ∈ rest := by
        rcases List.mem_cons.1 hmem with h | h
        · exact absurd h.symm hhd
        · exact h
      have hmap' : (dictGet? (dictSet map hd tool_name) i).isSome := by
        rw [dictGet?_dictSet_ne _ _ _ _ (fun h => hhd h.symm)]
        exact hmap
      cases hmi : dictGet? map hd with
      | none => simp only [hmi]; exact ih _ _ hmem' hmap'
      | some prior => simp only [hmi]; exact ih _ _ hmem' hmap'

theorem dictGet?_foldl_dictSet (intents : List String) (tool_name : String)
    (map : List (String × String)) (j : String) :
    dictGet? (intents.foldl (fun m i => dictSet m i tool_name) map) j =
      if j ∈ intents then some tool_name else dictGet? map j := by
  induction intents generalizing map with
  | nil => simp
  | cons i rest ih =>
    rw [List.foldl_cons, ih]
    by_cases hj : j ∈ rest
    · simp [hj]
    · by_cases hji : j = i
      · subst hji
        simp [hj, dictGet?_dictSet_self]
      · simp [hj, hji, dictGet?_dictSet_ne _ _ _ _ hji]

theorem dictGet?_foldl_dictErase (remove : List String)
    (map : List (String × String)) (j : String) (hnd : (dictKeys map).Nodup) :
    dictGet? (remove.foldl dictErase map) j =
      if j ∈ remove then none else dictGet? map j := by
  induction remove generalizing map with
  | nil => simp
  | cons k rest ih =>
    rw [List.foldl_cons, ih _ (dictKeys_dictErase_nodup _ _ hnd)]
    by_cases hj : j ∈ rest
    · simp [hj]
    · rw [dictGet?_dictErase _ _ _ hnd]
      by_cases hjk : j = k
      · subst hjk
        simp [hj]
      · simp [hj, hjk]

theorem mem_intents_to_remove_iff (map : List (String × String))
    (tool_name j : String) (hnd : (dictKeys map).Nodup) :
    (j ∈ (map.filter (fun kv => kv.2 == tool_name)).map Prod.fst) ↔
      dictGet? map j = some tool_name := by
  constructor
  · intro h
    obtain ⟨⟨k, v⟩, hkv, hk⟩ := List.mem_map.1 h
    obtain ⟨hmem, hv⟩ := List.mem_filter.1 hkv
    have hv' : v = tool_name := by simpa using hv
    subst hv'
    subst hk
    exact dictGet?_eq_some_of_mem_nodup _ _ _ hnd hmem
  · intro h
    exact List.mem_map.2 ⟨(j, tool_name),
      List.mem_filter.2 ⟨mem_of_dictGet?_eq_some _ _ _ h, by simp⟩, rfl⟩

/-! ### Demonstration registry used by concrete witnesses -/

/-- A handler body that always raises (its `execute` throws with message
`boom`). -/
def demoExecRaise : String → List (String × Json) → String → Except String String :=
  fun _ _ _ => .error "boom"

/-- A handler body that returns a domain result string. -/
def demoExecOk : String → List (String × Json) → String → Except String String :=
  fun _ _ _ => .ok "weather_ok: sunny"

def demoTool1 : Tool :=
  { supported_intents := ["shared_intent", "alpha_intent"], enabled := true
    execute := demoExecRaise }

def demoTool2 : Tool :=
  { supported_intents := ["shared_intent", "beta_intent"], enabled := true
    execute := demoExecOk }

/-- A registry built by two `register_tool` calls from the empty state; both
tools declare `shared_intent`. -/
def demoState : ToolManagerState :=
  (register_tool (register_tool ⟨[], []⟩ "t1" demoTool1).1 "t2" demoTool2).1

/-- C2: `ToolManager.execute_intent` never raises (the embedding is a total
function, mirroring the `try/except Exception` wrapper): an intent with no
registered tool yields the `unsupported_intent:` sentinel; a handler whose
`execute` raises is contained as an `execution_error:` sentinel; and since
the method never mutates registry state, a call with a different valid
intent against the same registry still returns its handler's result. -/
theorem execute_intent_error_containment (s : ToolManagerState)
    (iu i1 i2 : String) (eu e1 e2 : List (String × Json)) (tu t1 t2 : String)
    (name1 name2 : String) (tool1 tool2 : Tool) (msg r : String)
    (hne : i2 ≠ i1)
    (hu : dictGet? s.intent_tool_map iu = none)
    (h1m : dictGet? s.intent_tool_map i1 = some name1)
    (hn1 : name1 ≠ "")
    (h1t : dictGet? s.tools name1 = some tool1)
    (h1c : tool1.can_handle i1 = true)
    (h1e : tool1.execute i1 e1 t1 = .error msg)
    (h2m : dictGet? s.intent_tool_map i2 = some name2)
    (hn2 : name2 ≠ "")
    (h2t : dictGet? s.tools name2 = some tool2)
    (h2c : tool2.can_handle i2 = true)
    (h2e : tool2.execute i2 e2 t2 = .ok r) :
    execute_intent s iu eu tu = "unsupported_intent: " ++ iu ∧
    execute_intent s i1 e1 t1 = "execution_error: " ++ msg ∧
    execute_intent s i2 e2 t2 = r := by
  refine ⟨?_, ?_, ?_⟩
  · simp [execute_intent, hu]
  · simp [execute_intent, h1m, hn1, h1t, h1c, h1e]
  · simp [execute_intent, h2m, hn2, h2t, h2c, h2e]

/-- Witness for C2 on the concrete demonstration registry. -/
theorem execute_intent_error_containment_witness :
    execute_intent demoState "no_such_intent" [] "" =
      "unsupported_intent: no_such_intent" ∧
    execute_intent demoState "alpha_intent" [] "x" = "execution_error: boom" ∧
    execute_intent demoState "beta_intent" [] "y" = "weather_ok: sunny" :=
  execute_intent_error_containment demoState
    "no_such_intent" "alpha_intent" "beta_intent" [] [] [] "" "x" "y"
    "t1" "t2" demoTool1 demoTool2 "boom" "weather_ok: sunny"
    (by decide) rfl rfl (by decide) rfl (by decide) rfl rfl (by decide) rfl
    (by decide) rfl

/-- C3: each intent maps to at most one tool name (key uniqueness of
`intent_to_tool_map` is preserved by any sequence of registrations), and when
two enabled tools both declare the same intent the later registration owns the
mapping, observable through `get_tool_for_intent`; the overwrite is recorded
as a conflict log entry, and the registration returns normally (the embedding
is total — nothing is raised). -/
theorem register_tool_last_wins_conflict_logged (s : ToolManagerState)
    (n1 n2 : String) (t1 t2 : Tool) (i : String)
    (h1 : t1.enabled = true) (h2 : t2.enabled = true)
    (hi1 : i ∈ t1.supported_intents) (hi2 : i ∈ t2.supported_intents) :
    (∀ ts s', (dictKeys s'.intent_tool_map).Nodup →
      (dictKeys (registerMany s' ts).intent_tool_map).Nodup) ∧
    get_tool_for_intent (register_tool s n1 t1).1 i = some n1 ∧
    get_tool_for_intent (register_tool (register_tool s n1 t1).1 n2 t2).1 i
      = some n2 ∧
    ∃ c ∈ (register_tool (register_tool s n1 t1).1 n2 t2).2, c.intent = i := by
  have hreg : ∀ s' n t, (dictKeys s'.intent_tool_map).Nodup →
      (dictKeys ((register_tool s' n t).1).intent_tool_map).Nodup := by
    intro s' n t hnd
    by_cases ht : t.enabled
    · simpa [register_tool, ht] using nodup_registerIntentsLoop n _ _ [] hnd
    · simpa [register_tool, ht] using hnd
  have hs1 : dictGet? ((register_tool s n1 t1).1).intent_tool_map i = some n1 := by
    simp only [register_tool, h1, Bool.not_true, Bool.false_eq_true, if_false]
    rw [dictGet?_registerIntentsLoop]
    simp [hi1]
  refine ⟨?_, hs1, ?_, ?_⟩
  · intro ts
    induction ts with
    | nil => intro s' h; simpa [registerMany] using h
    | cons hd tl ih =>
      intro s' h
      have := ih ((register_tool s' hd.1 hd.2).1) (hreg _ _ _ h)
      simpa [registerMany] using this
  · simp only [get_tool_for_intent, register_tool, h2, Bool.not_true,
      Bool.false_eq_true, if_false]
    rw [dictGet?_registerIntentsLoop]
    simp [hi2]
  · set s1 := (register_tool s n1 t1).1 with hs1def
    simp only [register_tool, h2, Bool.not_true, Bool.false_eq_true, if_false]
    exact conflict_logged_registerIntentsLoop n2 _ _ [] i hi2 (by rw [hs1]; rfl)

/-- Witness for C3 on the demonstration tools (both declare `shared_intent`;
`t2` registers later and wins; the conflict is logged). -/
theorem register_tool_last_wins_conflict_logged_witness :
    get_tool_for_intent demoState "shared_intent" = some "t2" ∧
    ∃ c ∈ (register_tool (register_tool ⟨[], []⟩ "t1" demoTool1).1 "t2"
      demoTool2).2, c.intent = "shared_intent" :=
  ⟨(register_tool_last_wins_conflict_logged ⟨[], []⟩ "t1" "t2" demoTool1 demoTool2
      "shared_intent" rfl rfl (by decide) (by decide)).2.2.1,
   (register_tool_last_wins_conflict_logged ⟨[], []⟩ "t1" "t2" demoTool1 demoTool2
      "shared_intent" rfl rfl (by decide) (by decide)).2.2.2⟩

/-- C8 as stated is false: disabling a tool only removes the intents
*currently mapped* to it.  Here both demonstration tools declare
`shared_intent`, the later registration (`t2`) owns the mapping, and after
`disable_tool "t1"` the intent `shared_intent` — which `t1` declares — is
still routable (resolve returns `t2`, not no-owner). -/
theorem disable_tool_declared_intent_still_routable :
    "shared_intent" ∈ demoTool1.supported_intents ∧
    (disable_tool demoState "t1").2 = true ∧
    get_tool_for_intent (disable_tool demoState "t1").1 "shared_intent"
      = some "t2" :=
  ⟨by decide, rfl, rfl⟩

/-- C8 (amended): immediately after `disable_tool`, every intent *currently
mapped to* the disabled tool resolves to no owner, mappings owned by other
tools are unchanged, and a subsequent `enable_tool` re-adds a mapping for
every intent the tool declares. -/
theorem disable_enable_routability (s : ToolManagerState) (tool_name : String)
    (tool : Tool)
    (hnd : (dictKeys s.intent_tool_map).Nodup)
    (ht : dictGet? s.tools tool_name = some tool) :
    (∀ i, dictGet? s.intent_tool_map i = some tool_name →
      get_tool_for_intent (disable_tool s tool_name).1 i = none) ∧
    (∀ i n, n ≠ tool_name → dictGet? s.intent_tool_map i = some n →
      get_tool_for_intent (disable_tool s tool_name).1 i = some n) ∧
    (∀ i, i ∈ tool.supported_intents →
      get_tool_for_intent (enable_tool (disable_tool s tool_name).1 tool_name).1 i
        = some tool_name) := by
  have hmap : ∀ j, dictGet? ((disable_tool s tool_name).1).intent_tool_map j =
      if dictGet? s.intent_tool_map j = some tool_name then none
      else dictGet? s.intent_tool_map j := by
    intro j
    simp only [disable_tool, ht]
    rw [dictGet?_foldl_dictErase _ _ _ hnd]
    by_cases hj : dictGet? s.intent_tool_map j = some tool_name
    · simp [hj, (mem_intents_to_remove_iff s.intent_tool_map tool_name j hnd).2 hj]
    · have : j ∉ (s.intent_tool_map.filter (fun kv => kv.2 == tool_name)).map
          Prod.fst := by
        intro hc
        exact hj ((mem_intents_to_remove_iff s.intent_tool_map tool_name j hnd).1 hc)
      simp [hj, this]
  refine ⟨?_, ?_, ?_⟩
  · intro i hi
    rw [get_tool_for_intent, hmap i, if_pos hi]
  · intro i n hn hi
    rw [get_tool_for_intent, hmap i]
    have : ¬ dictGet? s.intent_tool_map i = some tool_name := by
      rw [hi]
      intro hc
      exact hn (Option.some.inj hc)
    rw [if_neg this, hi]
  · intro i hi
    have htools : dictGet? ((disable_tool s tool_name).1).tools tool_name
        = some (tool.set_enabled false) := by
      simp only [disable_tool, ht]
      exact dictGet?_dictSet_self _ _ _
    simp only [get_tool_for_intent, enable_tool, htools]
    rw [dictGet?_foldl_dictSet]
    simp [Tool.set_enabled, hi]

/-- Witness for the amended C8 on the demonstration registry: disabling the
owner `t2` makes `shared_intent` unroutable, leaves `t1`'s mapping for
`alpha_intent` intact, and re-enabling `t2` restores `beta_intent`. -/
theorem disable_enable_routability_witness :
    get_tool_for_intent (disable_tool demoState "t2").1 "shared_intent" = none ∧
    get_tool_for_intent (disable_tool demoState "t2").1 "alpha_intent"
      = some "t1" ∧
    get_tool_for_intent (enable_tool (disable_tool demoState "t2").1 "t2").1
      "beta_intent" = some "t2" :=
  ⟨(disable_enable_routability demoState "t2" demoTool2 (by decide) rfl).1
      "shared_intent" rfl,
   (disable_enable_routability demoState "t2" demoTool2 (by decide) rfl).2.1
      "alpha_intent" "t1" (by decide) rfl,
   (disable_enable_routability demoState "t2" demoTool2 (by decide) rfl).2.2
      "beta_intent" (by decide)⟩

/-! ### Rule engine (`src/addy_core/nlp_module.py`, `_parse_intent_rules`)

A pattern-table entry carries an intent label, the compiled regex (embedded
abstractly as its `re.search` behaviour on the processed text: `none` when
the regex does not match, otherwise a match object), and the per-entity
extractor configuration.  A match object exposes `match.re.groups` and
`match.group(i)` (`none` when the group did not participate).  A Python
exception raised by an extractor callable is `PyExc`; the source catches
exactly `IndexError` (nlp_module.py lines 378-380). -/

inductive PyExc where
  | indexError : PyExc
  | otherError (msg : String) : PyExc
  deriving DecidableEq

structure ReMatch where
  groups : Nat
  group : Nat → Option String

/-- One entry of a pattern's `entity_extractors` dict: a bare capture-group
index, an `(index, normalizer)` tuple (the normalizer slot may be falsy), or
a callable on the match object (which may raise). -/
inductive ExtractorCfg where
  | idx (i : Nat)
  | idxNorm (i : Nat) (normalizer : Option (String → String))
  | call (f : ReMatch → Except PyExc Json)

structure IntentPattern where
  intent : String
  search : String → Option ReMatch
  entity_extractors : List (String × ExtractorCfg)

/-- The per-entity extraction of `_parse_intent_rules` (nlp_module.py lines
356-383): tuple configs guard the group index and apply the normalizer to the
raw capture (or `strip` it when the normalizer slot is falsy); int configs
guard the index and `strip`; callables are invoked on the match inside
`try/except IndexError`, so an `IndexError` yields `None` for that entity and
any other exception propagates. -/
def extractOne (m : ReMatch) : ExtractorCfg → Except PyExc Json
  | .idxNorm i nf =>
    match (if i ≤ m.groups then m.group i else none) with
    | some s => .ok (.str (match nf with | some f => f s | none => pyStrip s))
    | none => .ok .null
  | .idx i =>
    match (if i ≤ m.groups then m.group i else none) with
    | some s => .ok (.str (pyStrip s))
    | none => .ok .null
  | .call f =>
    match f m with
    | .ok v => .ok v
    | .error .indexError => .ok .null
    | .error e => .error e

/-- The `for entity_name, extractor_config in item['entity_extractors'].items()`
loop, filling `intent_data['entities']`. -/
def extractAll (m : ReMatch) (extractors : List (String × ExtractorCfg))
    (entities : List (String × Json)) : Except PyExc (List (String × Json)) :=
  match extractors with
  | [] => .ok entities
  | (name, cfg) :: rest =>
    match extractOne m cfg with
    | .ok v => extractAll m rest (dictSet entities name v)
    | .error e => .error e

/-- The intent record built by the rule engine: the dict
`{'intent': ..., 'entities': ..., 'original_text': ..., 'engine': 'rule_based'}`
whose keys are fixed in `_parse_intent_rules`. -/
structure IntentData where
  intent : String
  entities : List (String × Json)
  original_text : String
  engine : String

/-- The `for item in self.intent_patterns` loop of `_parse_intent_rules`
(nlp_module.py lines 351-384): first pattern whose regex search-matches the
processed text wins, entities are extracted, and the loop `break`s; if no
pattern matches the `unknown` record is returned. -/
def parseRulesLoop (processed text_input : String) :
    List IntentPattern → Except PyExc IntentData
  | [] => .ok ⟨"unknown", [], text_input, "rule_based"⟩
  | p :: rest =>
    match p.search processed with
    | none => parseRulesLoop processed text_input rest
    | some m =>
      match extractAll m p.entity_extractors [] with
      | .ok es => .ok ⟨p.intent, es, text_input, "rule_based"⟩
      | .error e => .error e

/-- `NLPModule._parse_intent_rules`: lower-case and strip the input, then run
the ordered pattern table. -/
def parseIntentRules (patterns : List IntentPattern) (text_input : String) :
    Except PyExc IntentData :=
  parseRulesLoop (pyStrip (pyLower text_input)) text_input patterns

theorem parseRulesLoop_skip_nonmatching (processed text_input : String)
    (pre tail : List IntentPattern)
    (hpre : ∀ r ∈ pre, r.search processed = none) :
    parseRulesLoop processed text_input (pre ++ tail)
      = parseRulesLoop processed text_input tail := by
  induction pre with
  | nil => rfl
  | cons r pre2 ih =>
    have hr := hpre r (by simp)
    rw [List.cons_append, parseRulesLoop, hr]
    exact ih (fun r2 h => hpre r2 (by simp [h]))

/-- C5: pattern order is significant.  If every pattern before `p` fails to
match the processed text, `p` matches, and some later pattern `q` could also
match, then (a) the parse result is unchanged when everything after `p` is
replaced by an arbitrary other tail — the later patterns are never evaluated
— and (b) the returned intent is `p`'s label. -/
theorem rule_pattern_order_first_match_wins (pre : List IntentPattern)
    (p q : IntentPattern) (rest rest' : List IntentPattern)
    (text_input : String) (m mq : ReMatch) (es : List (String × Json))
    (hpre : ∀ r ∈ pre, r.search (pyStrip (pyLower text_input)) = none)
    (hp : p.search (pyStrip (pyLower text_input)) = some m)
    (hq : q ∈ rest) (hqm : q.search (pyStrip (pyLower text_input)) = some mq)
    (hex : extractAll m p.entity_extractors [] = .ok es) :
    parseIntentRules (pre ++ p :: rest) text_input
      = parseIntentRules (pre ++ p :: rest') text_input ∧
    parseIntentRules (pre ++ p :: rest) text_input
      = .ok ⟨p.intent, es, text_input, "rule_based"⟩ := by
  have key : ∀ rs, parseIntentRules (pre ++ p :: rs) text_input
      = .ok ⟨p.intent, es, text_input, "rule_based"⟩ := by
    intro rs
    rw [parseIntentRules, parseRulesLoop_skip_nonmatching _ _ _ _ hpre,
      parseRulesLoop, hp]
    simp [hex]
  exact ⟨(key rest).trans (key rest').symm, key rest⟩

/-- A match object for demonstration patterns: one capture group, always
participating. -/
def demoMatch : ReMatch := ⟨1, fun _ => some "captured"⟩

def demoPatternA : IntentPattern :=
  { intent := "intent_a"
    search := fun s => if s = "overlap text" then some demoMatch else none
    entity_extractors := [] }

def demoPatternB : IntentPattern :=
  { intent := "intent_b"
    search := fun s => if s = "overlap text" then some demoMatch else none
    entity_extractors := [] }

/-- Witness for C5: the two demonstration patterns overlap on the input
`"Overlap TEXT"` (processed to `"overlap text"`); the earlier one wins and
the later one is never consulted. -/
theorem rule_pattern_order_first_match_wins_witness :
    parseIntentRules [demoPatternA, demoPatternB] "Overlap TEXT"
      = parseIntentRules [demoPatternA] "Overlap TEXT" ∧
    parseIntentRules [demoPatternA, demoPatternB] "Overlap TEXT"
      = .ok ⟨"intent_a", [], "Overlap TEXT", "rule_based"⟩ :=
  rule_pattern_order_first_match_wins [] demoPatternA demoPatternB
    [demoPatternB] [] "Overlap TEXT" demoMatch demoMatch []
    (by intro r hr; simp at hr) (by rfl) (by simp) (by rfl) rfl

/-- A matching pattern whose callable extractor raises a non-`IndexError`
exception (e.g. a `TypeError`), alongside an int extractor that succeeds. -/
def demoBadCallPattern : IntentPattern :=
  { intent := "demo_intent"
    search := fun _ => some demoMatch
    entity_extractors :=
      [("good", .idx 1), ("bad", .call (fun _ => .error (.otherError "TypeError: boom")))] }

/-- C6 as stated is false: only `IndexError` is caught per-entity
(nlp_module.py line 378); a callable extractor that raises any other
exception aborts the whole parse — no intent record is returned at all. -/
theorem callable_extractor_other_exception_fatal :
    parseIntentRules [demoBadCallPattern] "anything"
      = .error (.otherError "TypeError: boom") := rfl

theorem extractAll_ok_of_all_ok (m : ReMatch)
    (extractors : List (String × ExtractorCfg))
    (hall : ∀ nc ∈ extractors, ∃ v, extractOne m nc.2 = .ok v) :
    ∀ ents, ∃ es, extractAll m extractors ents = .ok es := by
  induction extractors with
  | nil => intro ents; exact ⟨ents, rfl⟩
  | cons hd rest ih =>
    intro ents
    obtain ⟨name, cfg⟩ := hd
    obtain ⟨v, hv⟩ := hall (name, cfg) (by simp)
    obtain ⟨es, hes⟩ := ih (fun nc h => hall nc (by simp [h])) (dictSet ents name v)
    exact ⟨es, by rw [extractAll, hv]; exact hes⟩

theorem extractAll_preserves_other_keys (m : ReMatch)
    (extractors : List (String × ExtractorCfg)) (k : String)
    (hk : k ∉ extractors.map Prod.fst) :
    ∀ ents es, extractAll m extractors ents = .ok es →
      dictGet? es k = dictGet? ents k := by
  induction extractors with
  | nil => intro ents es h; cases h; rfl
  | cons hd rest ih =>
    intro ents es h
    obtain ⟨name, cfg⟩ := hd
    rw [extractAll] at h
    cases hv : extractOne m cfg with
    | error e => rw [hv] at h; cases h
    | ok v =>
      rw [hv] at h
      have hne : k ≠ name := by
        intro he; exact hk (by simp [he])
      rw [ih (fun hc => hk (by simp [hc])) _ _ h, dictGet?_dictSet_ne _ _ _ _ hne]

theorem extractAll_entity_value (m : ReMatch)
    (extractors : List (String × ExtractorCfg)) (name : String)
    (cfg : ExtractorCfg) (v : Json)
    (hnd : (extractors.map Prod.fst).Nodup)
    (hmem : (name, cfg) ∈ extractors)
    (hv : extractOne m cfg = .ok v) :
    ∀ ents es, extractAll m extractors ents = .ok es →
      dictGet? es name = some v := by
  induction extractors with
  | nil => simp at hmem
  | cons hd rest ih =>
    intro ents es h
    obtain ⟨n0, c0⟩ := hd
    rw [extractAll] at h
    rw [List.map_cons, List.nodup_cons] at hnd
    cases hv0 : extractOne m c0 with
    | error e => rw [hv0] at h; cases h
    | ok v0 =>
      rw [hv0] at h
      rcases List.mem_cons.1 hmem with heq | hmem2
      · rw [Prod.mk.injEq] at heq
        obtain ⟨h1, h2⟩ := heq
        subst h1; subst h2
        rw [hv] at hv0
        cases hv0
        rw [extractAll_preserves_other_keys m rest name hnd.1 _ _ h,
          dictGet?_dictSet_self]
      · exact ih hnd.2 hmem2 _ _ h

/-- C6 (amended): an `IndexError` raised by a callable extractor is caught
per-entity and yields `None` for that entity only — the matched intent and
the other entities are still returned — while any other exception raised
during callable extraction aborts the parse (see the counterexample). -/
theorem callable_index_error_caught_per_entity (pre : List IntentPattern)
    (p : IntentPattern) (rest : List IntentPattern) (text_input name : String)
    (m : ReMatch) (f : ReMatch → Except PyExc Json)
    (hpre : ∀ r ∈ pre, r.search (pyStrip (pyLower text_input)) = none)
    (hp : p.search (pyStrip (pyLower text_input)) = some m)
    (hnd : (p.entity_extractors.map Prod.fst).Nodup)
    (hmem : (name, .call f) ∈ p.entity_extractors)
    (hf : f m = .error .indexError)
    (hall : ∀ nc ∈ p.entity_extractors, ∃ v, extractOne m nc.2 = .ok v) :
    ∃ es, extractAll m p.entity_extractors [] = .ok es ∧
      parseIntentRules (pre ++ p :: rest) text_input
        = .ok ⟨p.intent, es, text_input, "rule_based"⟩ ∧
      dictGet? es name = some Json.null := by
  obtain ⟨es, hes⟩ := extractAll_ok_of_all_ok m p.entity_extractors hall []
  refine ⟨es, hes, ?_, ?_⟩
  · rw [parseIntentRules, parseRulesLoop_skip_nonmatching _ _ _ _ hpre,
      parseRulesLoop, hp]
    simp [hes]
  · have hone : extractOne m (.call f) = .ok Json.null := by
      rw [extractOne, hf]
    exact extractAll_entity_value m p.entity_extractors name (.call f)
      Json.null hnd hmem hone _ _ hes

/-- A matching pattern whose callable extractor raises `IndexError` (the
lambda touches a group that did not match), next to a succeeding extractor. -/
def demoIdxErrPattern : IntentPattern :=
  { intent := "demo_idx"
    search := fun _ => some demoMatch
    entity_extractors :=
      [("good", .idx 1), ("bad", .call (fun _ => .error .indexError))] }

/-- Witness for the amended C6: the `IndexError`-raising callable yields
`None` for its entity while the parse succeeds with the matched intent and
the other entity. -/
theorem callable_index_error_caught_per_entity_witness :
    ∃ es, extractAll demoMatch demoIdxErrPattern.entity_extractors [] = .ok es ∧
      parseIntentRules [demoIdxErrPattern] "anything"
        = .ok ⟨"demo_idx", es, "anything", "rule_based"⟩ ∧
      dictGet? es "bad" = some Json.null :=
  callable_index_error_caught_per_entity [] demoIdxErrPattern [] "anything"
    "bad" demoMatch (fun _ => .error .indexError)
    (by intro r hr; simp at hr) rfl (by decide) (by simp [demoIdxErrPattern])
    rfl
    (by
      intro nc hnc
      rcases List.mem_cons.1 hnc with h | h
      · exact ⟨Json.str "captured", by rw [h]; rfl⟩
      · rcases List.mem_cons.1 h with h2 | h2
        · exact ⟨Json.null, by rw [h2]; rfl⟩
        · simp at h2)

/-! ### Intent Normalizer (`src/addy_core/nlp_module.py`, `_parse_intent_llm`)

The normalization step applied to a successfully JSON-parsed LLM response
dict (nlp_module.py lines 407-430): infer the intent from `tool_call.name`
when the intent is missing or `'unknown'`, optionally fill `entities` from
`tool_call.arguments`, guarantee both keys exist, and stamp `original_text`
and `engine = 'llm'`. -/

/-- Python truthiness of an optional value (`None` is falsy). -/
def optTruthy : Option Json → Bool
  | some v => v.truthy
  | none => false

/-- Python `d.get(k)` on a value the source has already checked with
`isinstance(d, dict)` (a non-dict yields `none`, matching the guard). -/
def Json.objGet? : Json → String → Option Json
  | .obj m, k => dictGet? m k
  | _, _ => none

/-- The normalization step of `_parse_intent_llm` on the parsed response
dict `llm_parsed_response` (nlp_module.py lines 407-430). -/
def normalizeLLMRecord (resp : List (String × Json)) (text_input : String) :
    List (String × Json) :=
  let intent := (dictGet? resp "intent").getD (.str "unknown")
  let entities := (dictGet? resp "entities").getD (.obj [])
  let resp1 :=
    match dictGet? resp "tool_call" with
    | none => resp
    | some tc =>
      if intent.eqStr "unknown" && tc.truthy && tc.isDict
          && optTruthy (tc.objGet? "name") then
        let respA := dictSet resp "intent" ((tc.objGet? "name").getD .null)
        if !entities.truthy && optTruthy (tc.objGet? "arguments") then
          dictSet respA "entities" ((tc.objGet? "arguments").getD .null)
        else respA
      else resp
  let resp2 :=
    if dictContains resp1 "intent" then resp1
    else dictSet resp1 "intent" (.str "unknown")
  let resp3 :=
    if dictContains resp2 "entities" then resp2
    else dictSet resp2 "entities" (.obj [])
  dictSet (dictSet resp3 "original_text" (.str text_input)) "engine" (.str "llm")

/-- The record of the C9 counterexample: it has all four normalized fields
(`original_text` equal to the utterance, `engine` equal to the `llm` tag)
but carries a `tool_call` while its intent is `'unknown'`. -/
def c9Record : List (String × Json) :=
  [("intent", .str "unknown"), ("entities", .obj []),
   ("original_text", .str "turn on"), ("engine", .str "llm"),
   ("tool_call", .obj [("name", .str "light_on")])]

/-- C9 as stated is false: a record satisfying the claim's condition (the
four fields present, `original_text` the utterance, `engine` the applied
tag) is *not* always returned unchanged — when its intent is `'unknown'`
and it carries a `tool_call` with a truthy name, the step rewrites the
intent to the tool name. -/
theorem normalize_changes_already_normalized_record :
    dictGet? c9Record "intent" = some (Json.str "unknown") ∧
    dictGet? c9Record "original_text" = some (Json.str "turn on") ∧
    dictGet? c9Record "engine" = some (Json.str "llm") ∧
    dictGet? (normalizeLLMRecord c9Record "turn on") "intent"
      = some (Json.str "light_on") ∧
    normalizeLLMRecord c9Record "turn on" ≠ c9Record := by
  refine ⟨rfl, rfl, rfl, rfl, ?_⟩
  intro h
  have h1 : dictGet? (normalizeLLMRecord c9Record "turn on") "intent"
      = some (Json.str "light_on") := rfl
  rw [h] at h1
  have h2 : dictGet? c9Record "intent" = some (Json.str "unknown") := rfl
  rw [h2] at h1
  exact absurd (Option.some.inj h1) (by simp)

/-- C9 (amended): the normalization step returns an already-normalized
record unchanged — one with `intent`, `entities`, `original_text` and
`engine` present, `original_text` equal to the utterance and `engine` equal
to the `llm` tag — provided it does not trigger tool-call intent inference
(its intent is not `'unknown'`, or it has no `tool_call` that is a truthy
dict with a truthy name). -/
theorem normalize_idempotent_on_normalized (r : List (String × Json))
    (text_input : String) (ij ej : Json)
    (hint : dictGet? r "intent" = some ij)
    (hent : dictGet? r "entities" = some ej)
    (horig : dictGet? r "original_text" = some (.str text_input))
    (heng : dictGet? r "engine" = some (.str "llm"))
    (hguard : ij.eqStr "unknown" = false ∨
      ∀ tc, dictGet? r "tool_call" = some tc →
        (tc.truthy && tc.isDict && optTruthy (tc.objGet? "name")) = false) :
    normalizeLLMRecord r text_input = r := by
  have hr1 : (match dictGet? r "tool_call" with
      | none => r
      | some tc =>
        if ((dictGet? r "intent").getD (.str "unknown")).eqStr "unknown"
            && tc.truthy && tc.isDict && optTruthy (tc.objGet? "name") then
          let respA := dictSet r "intent" ((tc.objGet? "name").getD .null)
          if !((dictGet? r "entities").getD (.obj [])).truthy
              && optTruthy (tc.objGet? "arguments") then
            dictSet respA "entities" ((tc.objGet? "arguments").getD .null)
          else respA
        else r) = r := by
    cases htc : dictGet? r "tool_call" with
    | none => rfl
    | some tc =>
      have hcond : (((dictGet? r "intent").getD (.str "unknown")).eqStr "unknown"
          && tc.truthy && tc.isDict && optTruthy (tc.objGet? "name")) = false := by
        rw [hint]
        rcases hguard with hg | hg
        · simp [Option.getD, hg]
        · have := hg tc htc
          rcases Bool.eq_false_iff.1 this with _
          simp only [Option.getD]
          cases hij : ij.eqStr "unknown"
          · simp
          · simp only [Bool.true_and]
            simpa [Bool.and_assoc] using this
      simp only [hcond, Bool.false_eq_true, if_false]
  rw [normalizeLLMRecord]
  simp only []
  rw [hr1]
  have hc1 : dictContains r "intent" = true := by
    rw [dictContains, hint]; rfl
  have hc2 : dictContains r "entities" = true := by
    rw [dictContains, hent]; rfl
  rw [hc1]
  simp only [if_true]
  rw [hc2]
  simp only [if_true]
  rw [dictSet_eq_self_of_get _ _ _ horig, dictSet_eq_self_of_get _ _ _ heng]

/-- An already-normalized record with no `tool_call`. -/
def c9GoodRecord : List (String × Json) :=
  [("intent", .str "get_weather"), ("entities", .obj [("city", .str "Beijing")]),
   ("original_text", .str "weather in beijing"), ("engine", .str "llm")]

/-- Witness for the amended C9. -/
theorem normalize_idempotent_on_normalized_witness :
    normalizeLLMRecord c9GoodRecord "weather in beijing" = c9GoodRecord :=
  normalize_idempotent_on_normalized c9GoodRecord "weather in beijing"
    (.str "get_weather") (.obj [("city", .str "Beijing")])
    rfl rfl rfl rfl (.inl rfl)

/-! ### LLM adapter (`src/addy_core/llm_services/openai_service.py`,
`get_intent_and_entities`)

The HTTP call and response are embedded abstractly:
* `PostResult.exc` — `requests.post` raised (transport failure / timeout);
* `PostResult.resp st none` — a response whose JSON body or
  `['choices'][0]['message']` extraction raises (only consulted when
  `st = 200`; both raise inside the `try`, landing in the outer
  `except Exception`);
* `PostResult.resp st (some msg)` — a response carrying a message with its
  `tool_calls` list (absent or `null` ⇒ `[]`, both falsy) and its `content`
  field (`absent` ⇒ `message.get('content','')` gives `""`; `nullv` ⇒ the
  later `content.strip()` raises `AttributeError`).

`json.loads`/`json.dumps` are modelled by an abstract parser argument
`parseJson` returning a `Json` value (`Except` error = `JSONDecodeError`
message); the function result is the `Json` object that the source
serializes with `json.dumps`, so "returns a valid JSON string with keys
`intent`/`entities`" is stated as the result being an object with those
keys.  The `ValueError` message `返回的JSON缺少'intent'字段` is modelled by
the constant string `missing intent field`. -/

inductive OAContent where
  | absent : OAContent
  | nullv : OAContent
  | text (s : String) : OAContent

structure OAToolCall where
  name : String
  argumentsStr : String

structure OAMessage where
  tool_calls : List OAToolCall
  content : OAContent

inductive PostResult where
  | exc : PostResult
  | resp (status : Nat) (body : Option OAMessage) : PostResult

/-- An exception inside the embedded-JSON content branch:
`jsonOrValue` is caught by the inner `except (json.JSONDecodeError,
ValueError)`; `other` (`TypeError`, `KeyError`, `AttributeError`, …)
escapes to the outer `except Exception`. -/
inductive ContentErr where
  | jsonOrValue (msg : String) : ContentErr
  | other : ContentErr

/-- Substring test, modelling Python `needle in haystack` on strings. -/
def strContainsSub (hay needle : String) : Bool :=
  (List.range (hay.data.length + 1)).any
    (fun i => needle.data.isPrefixOf (hay.data.drop i))

/-- Python `k in x` for a dynamic `x`: key test on dicts, element equality
on lists, substring test on strings; a `TypeError` otherwise. -/
def pyContains (p : Json) (k : String) : Except ContentErr Bool :=
  match p with
  | .obj m => .ok (dictContains m k)
  | .arr xs => .ok (xs.any (fun x => x.eqStr k))
  | .str s => .ok (strContainsSub s k)
  | _ => .error .other

/-- Python `x[k]` for a dynamic `x` and string key: dict indexing (a missing
key raises `KeyError`); lists and strings raise `TypeError` on string
indices; a `TypeError` otherwise. -/
def pyIndex (p : Json) (k : String) : Except ContentErr Json :=
  match p with
  | .obj m =>
    match dictGet? m k with
    | some v => .ok v
    | none => .error .other
  | _ => .error .other

/-- Python `x[k] = v`: only dicts support string-key assignment. -/
def jsonSetKey (p : Json) (k : String) (v : Json) : Except ContentErr Json :=
  match p with
  | .obj m => .ok (.obj (dictSet m k v))
  | _ => .error .other

/-- Python `x.get(k, default)`: `AttributeError` on non-dicts. -/
def pyGetD (p : Json) (k : String) (default : Json) : Except ContentErr Json :=
  match p with
  | .obj m => .ok ((dictGet? m k).getD default)
  | _ => .error .other

/-- The final `if 'entities' not in parsed_content: parsed_content['entities'] = {}`
guard (openai_service.py lines 262-263). -/
def ensureEntities (p : Json) : Except ContentErr Json :=
  match pyContains p "entities" with
  | .error e => .error e
  | .ok true => .ok p
  | .ok false => jsonSetKey p "entities" (.obj [])

/-- The code-fence stripping of the embedded-JSON branch (openai_service.py
lines 246-249). -/
def stripJsonFence (content : String) : String :=
  if strStartsWith (pyStrip content) "```json" && strEndsWith (pyStrip content) "```"
  then pyStrip (strDropRight (strDrop (pyStrip content) 7) 3)
  else if strStartsWith (pyStrip content) "\x7b" && strEndsWith (pyStrip content) "\x7d"
  then pyStrip content
  else content

/-- The body of the inner `try` of the embedded-JSON branch
(openai_service.py lines 251-266), after fence stripping: parse the content,
infer a missing intent from a custom-format `tool_call`, raise `ValueError`
when neither is available, and guarantee the `entities` key. -/
def processContent (parseJson : String → Except String Json) (content : String) :
    Except ContentErr Json :=
  match parseJson content with
  | .error e => .error (.jsonOrValue e)
  | .ok p =>
    match pyContains p "intent" with
    | .error e => .error e
    | .ok true => ensureEntities p
    | .ok false =>
      match pyContains p "tool_call" with
      | .error e => .error e
      | .ok false => .error (.jsonOrValue "missing intent field")
      | .ok true =>
        match pyIndex p "tool_call" with
        | .error e => .error e
        | .ok tc =>
          match pyContains tc "name" with
          | .error e => .error e
          | .ok false => .error (.jsonOrValue "missing intent field")
          | .ok true =>
            match pyIndex p "tool_call" with
            | .error e => .error e
            | .ok tc2 =>
              match pyIndex tc2 "name" with
              | .error e => .error e
              | .ok nm =>
                match jsonSetKey p "intent" nm with
                | .error e => .error e
                | .ok p1 =>
                  match pyContains p1 "entities" with
                  | .error e => .error e
                  | .ok true => ensureEntities p1
                  | .ok false =>
                    match pyIndex p1 "tool_call" with
                    | .error e => .error e
                    | .ok tc3 =>
                      match pyGetD tc3 "arguments" (.obj []) with
                      | .error e => .error e
                      | .ok args =>
                        match jsonSetKey p1 "entities" args with
                        | .error e => .error e
                        | .ok p2 => ensureEntities p2

/-- The safe record `{'intent': 'unknown', 'entities': {}}`. -/
def unknownEmptyRecord : Json :=
  .obj [("intent", .str "unknown"), ("entities", .obj [])]

/-- The embedded-JSON branch with its two exception handlers: the inner
`except (json.JSONDecodeError, ValueError)` produces the
`raw_response`/`error` fallback over the (fence-stripped) content, and an
escaping exception reaches the outer `except Exception`, which returns the
safe record (openai_service.py lines 267-272 and 277-279). -/
def contentBranch (parseJson : String → Except String Json) (content : String) :
    Json :=
  let c := stripJsonFence content
  match processContent parseJson c with
  | .ok p => p
  | .error (.jsonOrValue e) =>
    .obj [("intent", .str "unknown"),
          ("entities", .obj [("raw_response", .str c), ("error", .str e)])]
  | .error .other => unknownEmptyRecord

/-- `OpenAIService.get_intent_and_entities` (openai_service.py lines
162-279): missing API key, transport exception, non-200 status and
unextractable body all yield the safe record; a native `tool_calls` response
is translated to the internal `tool_call` shape (with its own fallback when
the arguments string does not parse); otherwise the message content goes
through the embedded-JSON branch. -/
def getIntentAndEntities (api_key : Option String) (post : PostResult)
    (parseJson : String → Except String Json) : Json :=
  match api_key with
  | none => unknownEmptyRecord
  | some _ =>
    match post with
    | .exc => unknownEmptyRecord
    | .resp status body =>
      if status = 200 then
        match body with
        | none => unknownEmptyRecord
        | some message =>
          match message.tool_calls with
          | tc :: _ =>
            match parseJson tc.argumentsStr with
            | .error _ =>
              .obj [("intent", .str "unknown"),
                    ("entities", .obj [("error", .str "Failed to parse tool arguments")])]
            | .ok args =>
              .obj [("intent", .str tc.name), ("entities", args),
                    ("tool_call", .obj [("name", .str tc.name), ("arguments", args)])]
          | [] =>
            match message.content with
            | .nullv => unknownEmptyRecord
            | .absent => contentBranch parseJson ""
            | .text s => contentBranch parseJson s
      else unknownEmptyRecord

/-- C4: on every adapter failure — transport exception, non-200 response, or
unparsable payload (unextractable body, unparsable message content, or
unparsable native tool-call arguments) — `get_intent_and_entities` returns a
JSON object carrying both an `intent` and an `entities` key.  The embedding
is a total function, mirroring that the outer `try/except` never lets an
exception propagate to the caller. -/
theorem llm_failure_returns_intent_entities_record (api_key : Option String)
    (post : PostResult) (parseJson : String → Except String Json)
    (hfail :
      post = .exc ∨
      (∃ st body, post = .resp st body ∧ st ≠ 200) ∨
      post = .resp 200 none ∨
      (∃ msg s e, post = .resp 200 (some msg) ∧ msg.tool_calls = [] ∧
        msg.content = .text s ∧ parseJson (stripJsonFence s) = .error e) ∨
      (∃ msg tc rest e, post = .resp 200 (some msg) ∧
        msg.tool_calls = tc :: rest ∧ parseJson tc.argumentsStr = .error e)) :
    ∃ m, getIntentAndEntities api_key post parseJson = .obj m ∧
      dictContains m "intent" = true ∧ dictContains m "entities" = true := by
  cases api_key with
  | none => exact ⟨_, rfl, rfl, rfl⟩
  | some key =>
    rcases hfail with h | ⟨st, body, h, hst⟩ | h | ⟨msg, s, e, h, htc, hct, hp⟩
      | ⟨msg, tc, rest, e, h, htc, hp⟩
    · subst h; exact ⟨_, rfl, rfl, rfl⟩
    · subst h
      refine ⟨[("intent", .str "unknown"), ("entities", .obj [])], ?_, rfl, rfl⟩
      simp [getIntentAndEntities, hst, unknownEmptyRecord]
    · subst h; exact ⟨_, rfl, rfl, rfl⟩
    · subst h
      refine ⟨[("intent", .str "unknown"),
        ("entities", .obj [("raw_response", .str (stripJsonFence s)),
                           ("error", .str e)])], ?_, rfl, rfl⟩
      simp [getIntentAndEntities, htc, hct, contentBranch, processContent, hp]
    · subst h
      refine ⟨[("intent", .str "unknown"),
        ("entities", .obj [("error", .str "Failed to parse tool arguments")])],
        ?_, rfl, rfl⟩
      simp [getIntentAndEntities, htc, hp]

/-- Witness for C4 at a concrete transport exception. -/
theorem llm_failure_returns_intent_entities_record_witness :
    ∃ m, getIntentAndEntities (some "sk-demo") .exc
        (fun _ => .error "Expecting value") = .obj m ∧
      dictContains m "intent" = true ∧ dictContains m "entities" = true :=
  llm_failure_returns_intent_entities_record (some "sk-demo") .exc
    (fun _ => .error "Expecting value") (.inl rfl)

/-- A parser behaviour on which the content is not valid JSON. -/
def demoFailParse : String → Except String Json :=
  fun _ => .error "Expecting value"

/-- A 200-status message with no tool calls whose content is plain text. -/
def demoPlainMessage : OAMessage := ⟨[], .text "oops"⟩

/-- C7 as stated is false: the fallback record of the embedded-JSON branch is
not exactly `{"intent": "unknown", "entities": {"raw_response": <text>}}` —
the source additionally stores the exception text under an `error` key
(openai_service.py line 271). -/
theorem embedded_json_fallback_not_exact :
    getIntentAndEntities (some "sk-demo") (.resp 200 (some demoPlainMessage))
      demoFailParse
      = .obj [("intent", .str "unknown"),
              ("entities", .obj [("raw_response", .str "oops"),
                                 ("error", .str "Expecting value")])] ∧
    getIntentAndEntities (some "sk-demo") (.resp 200 (some demoPlainMessage))
      demoFailParse
      ≠ .obj [("intent", .str "unknown"),
              ("entities", .obj [("raw_response", .str "oops")])] := by
  refine ⟨rfl, ?_⟩
  intro h
  rw [show getIntentAndEntities (some "sk-demo") (.resp 200 (some demoPlainMessage))
      demoFailParse
      = .obj [("intent", .str "unknown"),
              ("entities", .obj [("raw_response", .str "oops"),
                                 ("error", .str "Expecting value")])] from rfl] at h
  simp at h

/-- C7 (amended): in the embedded-JSON path, for every 200 response whose
message content (after fence stripping) is not valid JSON, or parses to an
object lacking `intent` with no `tool_call` to infer it from, the adapter
falls back to `{"intent": "unknown", "entities": {"raw_response":
<fence-stripped content>, "error": <message>}}` rather than failing the
whole turn. -/
theorem embedded_json_fallback_contract (api_key s e : String)
    (msg : OAMessage) (parseJson : String → Except String Json)
    (pm : List (String × Json))
    (htc : msg.tool_calls = []) (hct : msg.content = .text s) :
    (parseJson (stripJsonFence s) = .error e →
      getIntentAndEntities (some api_key) (.resp 200 (some msg)) parseJson
        = .obj [("intent", .str "unknown"),
                ("entities", .obj [("raw_response", .str (stripJsonFence s)),
                                   ("error", .str e)])]) ∧
    (parseJson (stripJsonFence s) = .ok (.obj pm) →
      dictContains pm "intent" = false →
      dictContains pm "tool_call" = false →
      getIntentAndEntities (some api_key) (.resp 200 (some msg)) parseJson
        = .obj [("intent", .str "unknown"),
                ("entities", .obj [("raw_response", .str (stripJsonFence s)),
                                   ("error", .str "missing intent field")])]) := by
  constructor
  · intro hp
    simp [getIntentAndEntities, htc, hct, contentBranch, processContent, hp]
  · intro hp hI hT
    simp [getIntentAndEntities, htc, hct, contentBranch, processContent, hp,
      pyContains, hI, hT]

/-- A parser behaviour returning a JSON object with neither `intent` nor
`tool_call`. -/
def demoNoIntentParse : String → Except String Json :=
  fun _ => .ok (.obj [("data", Json.null)])

/-- Witness for the amended C7 on both covered shapes. -/
theorem embedded_json_fallback_contract_witness :
    getIntentAndEntities (some "sk-demo") (.resp 200 (some demoPlainMessage))
      demoFailParse
      = .obj [("intent", .str "unknown"),
              ("entities", .obj [("raw_response", .str "oops"),
                                 ("error", .str "Expecting value")])] ∧
    getIntentAndEntities (some "sk-demo") (.resp 200 (some demoPlainMessage))
      demoNoIntentParse
      = .obj [("intent", .str "unknown"),
              ("entities", .obj [("raw_response", .str "oops"),
                                 ("error", .str "missing intent field")])] :=
  ⟨(embedded_json_fallback_contract "sk-demo" "oops" "Expecting value"
      demoPlainMessage demoFailParse [("data", Json.null)] rfl rfl).1 rfl,
   (embedded_json_fallback_contract "sk-demo" "oops" "Expecting value"
      demoPlainMessage demoNoIntentParse [("data", Json.null)] rfl rfl).2
      rfl rfl rfl⟩

/-! ### Dispatcher (`src/addy_core/task_executor.py`, `TaskExecutor.execute`)

`execute` receives the intent record (a dict) and returns a status string,
speaking feedback along the way; the embedding returns the status string
together with the ordered list of spoken messages.  The constructor
guarantees `self.tool_manager` is always set, so the registry state is a
plain parameter.  The bodies of the legacy built-in branches
(task_executor.py lines 120-399: process spawning, browser, clock and
desktop-automation side effects) are abstracted into one environment
function `legacy`, invoked exactly when the dispatch chain reaches an intent
equal to one of the legacy intent strings; their internals decide no claim
verified here.  The inner `try/except` around registry calls never fires
because `execute_intent` is total; the only body exception reachable in the
embedding is the `AttributeError` from calling `.get` on a truthy non-dict
`tool_call`, which the outer `except Exception` turns into an
`error: <message>` result (modelled by `attrErrStr`). -/

structure ExecOutcome where
  result : String
  spoken : List String

/-- Python `str(x) if x is not None else ''`. -/
def pyStrOrEmpty : Json → String
  | .null => ""
  | j => pyStr j

/-- `entities if isinstance(entities, dict) else {}`. -/
def entitiesDict : Json → List (String × Json)
  | .obj m => m
  | _ => []

/-- `self.tool_manager.get_tool_for_intent(intent)` where `intent` is the
dynamic value from the record: a string-keyed dict holds no non-string key. -/
def getToolForIntentJson (tm : ToolManagerState) (j : Json) : Option String :=
  match j with
  | .str s => dictGet? tm.intent_tool_map s
  | _ => none

/-- Python truthiness of `get_tool_for_intent`'s result (`None` and the empty
string are falsy). -/
def optStrTruthy : Option String → Bool
  | some s => s != ""
  | none => false

/-- `result.split(':', 1)[1]`: everything after the first colon. -/
def afterFirstColon (s : String) : String :=
  ⟨(s.data.dropWhile (· ≠ ':')).drop 1⟩

/-- The legacy intent labels tested by the `elif intent == '...'` chain of
`TaskExecutor.execute` (task_executor.py lines 120-399), in source order. -/
def legacyIntents : List String :=
  ["open_application", "open_application_generic", "get_time", "search_web",
   "search_web_generic", "greeting", "exit_assistant", "activate_window",
   "minimize_window", "maximize_window", "close_window", "list_windows",
   "capture_screen", "move_mouse", "click_mouse", "type_text", "press_key",
   "hotkey"]

/-- Spoken feedback of task_executor.py line 47. -/
def cantUnderstandMsg : String := "抱歉，我无法理解这个指令。"

/-- Spoken feedback of task_executor.py line 91. -/
def incompleteToolMsg : String := "LLM建议使用工具，但工具名称不完整。"

/-- Spoken feedback of task_executor.py line 83 (quotes dropped). -/
def toolProblemMsg (tool_name r : String) : String :=
  "执行工具 " ++ tool_name ++ " 时遇到问题: " ++ pyStrip (afterFirstColon r)

/-- Spoken feedback of task_executor.py line 107 (quotes dropped). -/
def genericProblemMsg (t : String) : String :=
  "处理指令 " ++ t ++ " 时遇到问题。"

/-- Spoken feedback of task_executor.py line 411 (quotes dropped). -/
def dontKnowMsg (t i : String) : String :=
  "抱歉，我还不知道如何处理指令 " ++ t ++ " (意图: " ++ i ++ ")。"

/-- `str(e)` for the `AttributeError` raised by `.get` on a non-dict
(abstract rendering; no claim depends on the text). -/
def attrErrStr : String := "AttributeError: get"

/-- Spoken feedback of the outer handler, task_executor.py line 420. -/
def execErrorMsg (e : String) : String := "执行指令时发生错误: " ++ e

/-- The `tool_call` priority branch (task_executor.py lines 59-92): read
`name`/`arguments` from the tool-call dict, route through
`ToolManager.execute_intent`, speak on an `error:`-prefixed registry result,
and return `tool_executed: <name>` whenever the registry call returns
normally; a falsy `name` yields `error: incomplete_tool_info`.  A truthy
non-dict `tool_call` raises `AttributeError` at `.get`, caught by the outer
handler. -/
def execToolCallBranch (tm : ToolManagerState) (tc original_text : Json) :
    ExecOutcome :=
  match tc with
  | .obj tcm =>
    match dictGet? tcm "name" with
    | some nj =>
      if nj.truthy then
        let argsDict := match dictGet? tcm "arguments" with
          | some (.obj a) => a
          | _ => []
        let r := execute_intent tm (pyStr nj) argsDict (pyStrOrEmpty original_text)
        let spoken :=
          if r != "" && !strStartsWith r "error:" then ([] : List String)
          else if r != "" && strStartsWith r "error:" then
            [toolProblemMsg (pyStr nj) r]
          else []
        ⟨"tool_executed: " ++ pyStr nj, spoken⟩
      else ⟨"error: incomplete_tool_info", [incompleteToolMsg]⟩
    | none => ⟨"error: incomplete_tool_info", [incompleteToolMsg]⟩
  | _ => ⟨"error: " ++ attrErrStr, [execErrorMsg attrErrStr]⟩

/-- The dispatch chain below the `tool_call` branch (task_executor.py lines
96-412): a registry owner for the intent routes through `execute_intent`
(speaking on `error:` results, returning the raw result); otherwise the
legacy built-in chain; otherwise the registry is attempted once more as the
final catch-all, whose result is returned unless it is falsy or
`unhandled_intent`-prefixed, in which case the don't-know message is spoken
and `unhandled_intent: <intent>` returned. -/
def execNoToolCall (tm : ToolManagerState)
    (legacy : Json → Json → Json → ExecOutcome)
    (ij entities original_text : Json) : ExecOutcome :=
  if optStrTruthy (getToolForIntentJson tm ij) then
    let r := execute_intent tm (pyStrOrEmpty ij) (entitiesDict entities)
      (pyStrOrEmpty original_text)
    let spoken := if r != "" && strStartsWith r "error:" then
        [genericProblemMsg (pyStrOrEmpty original_text)]
      else []
    ⟨r, spoken⟩
  else if legacyIntents.any (fun l => ij.eqStr l) then
    legacy ij entities original_text
  else
    let r := execute_intent tm (pyStrOrEmpty ij) (entitiesDict entities)
      (pyStrOrEmpty original_text)
    if r != "" && !strStartsWith r "unhandled_intent" then ⟨r, []⟩
    else ⟨"unhandled_intent: " ++ pyStr ij, [dontKnowMsg (pyStr original_text) (pyStr ij)]⟩

/-- `TaskExecutor.execute` (task_executor.py lines 34-424). -/
def TaskExecutor.execute (tm : ToolManagerState)
    (legacy : Json → Json → Json → ExecOutcome)
    (intent_data : List (String × Json)) : ExecOutcome :=
  if intent_data.isEmpty || !dictContains intent_data "intent" then
    ⟨"error: no intent", [cantUnderstandMsg]⟩
  else
    let ij := (dictGet? intent_data "intent").getD .null
    let entities := (dictGet? intent_data "entities").getD (.obj [])
    let original_text := (dictGet? intent_data "original_text").getD (.str "")
    match dictGet? intent_data "tool_call" with
    | some tc =>
      if tc.truthy then execToolCallBranch tm tc original_text
      else execNoToolCall tm legacy ij entities original_text
    | none => execNoToolCall tm legacy ij entities original_text

/-- C10: in the `tool_call` path, whenever the record carries a truthy
tool-call dict with a truthy `name` and the registry call returns normally
(which it always does — `execute_intent` is total), `TaskExecutor.execute`
returns `tool_executed: <name>`, for every registry state — in particular
also when the registry result is an `error:`-prefixed failure or the
`unsupported_intent:` sentinel, which is never propagated on this path. -/
theorem tool_call_path_returns_tool_executed (tm : ToolManagerState)
    (legacy : Json → Json → Json → ExecOutcome)
    (intent_data tcm : List (String × Json)) (nj : Json)
    (hne : intent_data.isEmpty = false)
    (hint : dictContains intent_data "intent" = true)
    (htc : dictGet? intent_data "tool_call" = some (.obj tcm))
    (htcm : tcm.isEmpty = false)
    (hname : dictGet? tcm "name" = some nj)
    (hnt : nj.truthy = true) :
    (TaskExecutor.execute tm legacy intent_data).result
      = "tool_executed: " ++ pyStr nj := by
  have h1 : (Json.obj tcm).truthy = true := by
    rw [Json.truthy, htcm]
    rfl
  simp [TaskExecutor.execute, hne, hint, htc, h1, execToolCallBranch, hname, hnt]

def demoLegacy : Json → Json → Json → ExecOutcome := fun _ _ _ => ⟨"success", []⟩

def c10Record : List (String × Json) :=
  [("intent", .str "get_weather"), ("entities", .obj []),
   ("original_text", .str "weather in beijing"),
   ("tool_call", .obj [("name", .str "get_weather"),
                       ("arguments", .obj [("city", .str "Beijing")])])]

/-- Witness for C10: the demonstration registry has no tool for
`get_weather`, so the registry call yields the `unsupported_intent:`
sentinel, yet the dispatcher still returns `tool_executed: get_weather`. -/
theorem tool_call_path_returns_tool_executed_witness :
    (TaskExecutor.execute demoState demoLegacy c10Record).result
      = "tool_executed: get_weather" ∧
    execute_intent demoState "get_weather" [("city", .str "Beijing")]
      "weather in beijing" = "unsupported_intent: get_weather" :=
  ⟨tool_call_path_returns_tool_executed demoState demoLegacy c10Record
      [("name", .str "get_weather"), ("arguments", .obj [("city", .str "Beijing")])]
      (.str "get_weather") rfl rfl rfl rfl rfl rfl,
   rfl⟩

def emptyRegistry : ToolManagerState := ⟨[], []⟩

def c1Record : List (String × Json) :=
  [("intent", .str "play_music"), ("entities", .obj []),
   ("original_text", .str "play some jazz")]

/-- C1 as stated is false: when the final catch-all's registry attempt is
still unhandled, `execute_intent` returns the truthy sentinel
`unsupported_intent: <intent>`, which does not start with
`unhandled_intent`, so line 409 of task_executor.py returns it directly —
the don't-know message is not spoken and `unhandled_intent: <intent>` is
not returned.  Concretely: an empty registry, a record whose intent
`play_music` is not a legacy built-in, no tool_call. -/
theorem final_catch_all_returns_unsupported_sentinel :
    (TaskExecutor.execute emptyRegistry demoLegacy c1Record).result
      = "unsupported_intent: play_music" ∧
    (TaskExecutor.execute emptyRegistry demoLegacy c1Record).result
      ≠ "unhandled_intent: play_music" ∧
    (TaskExecutor.execute emptyRegistry demoLegacy c1Record).spoken = [] := by
  refine ⟨rfl, ?_, rfl⟩
  intro h
  rw [show (TaskExecutor.execute emptyRegistry demoLegacy c1Record).result
      = "unsupported_intent: play_music" from rfl] at h
  exact absurd h (by decide)

/-- Shared step for the final catch-all: an intent with no owner yields the
`unsupported_intent:` sentinel from the registry. -/
theorem execute_intent_no_owner (tm : ToolManagerState) (i : String)
    (e : List (String × Json)) (t : String)
    (h : dictGet? tm.intent_tool_map i = none) :
    execute_intent tm i e t = "unsupported_intent: " ++ i := by
  simp [execute_intent, h]

/-- C1 (amended): for an intent record with no truthy `tool_call`, whose
intent has no owner in the Tool Registry and is not a legacy built-in,
`TaskExecutor.execute` attempts the registry once more as the final
catch-all and returns the registry's sentinel `unsupported_intent: <intent>`
without speaking; the don't-know message and the
`unhandled_intent: <intent>` return are reached only when the registry
result is falsy or itself `unhandled_intent`-prefixed. -/
theorem final_catch_all_returns_registry_result (tm : ToolManagerState)
    (legacy : Json → Json → Json → ExecOutcome)
    (intent_data : List (String × Json)) (s : String)
    (hne : intent_data.isEmpty = false)
    (hint : dictGet? intent_data "intent" = some (.str s))
    (htc : ∀ tc, dictGet? intent_data "tool_call" = some tc → tc.truthy = false)
    (howner : dictGet? tm.intent_tool_map s = none)
    (hleg : s ∉ legacyIntents) :
    TaskExecutor.execute tm legacy intent_data
      = ⟨"unsupported_intent: " ++ s, []⟩ := by
  have hcont : dictContains intent_data "intent" = true := by
    rw [dictContains, hint]; rfl
  have hnoleg : (legacyIntents.any (fun l => Json.eqStr (.str s) l)) = false := by
    by_contra hcon
    rw [Bool.not_eq_false, List.any_eq_true] at hcon
    obtain ⟨l, hl, he⟩ := hcon
    rw [Json.eqStr] at he
    exact hleg ((eq_of_beq he) ▸ hl)
  have hbranch : execNoToolCall tm legacy (.str s)
      ((dictGet? intent_data "entities").getD (.obj []))
      ((dictGet? intent_data "original_text").getD (.str ""))
      = ⟨"unsupported_intent: " ++ s, []⟩ := by
    rw [execNoToolCall]
    have h1 : getToolForIntentJson tm (.str s) = none := by
      rw [getToolForIntentJson, howner]
    rw [h1]
    have h2 : optStrTruthy none = false := rfl
    rw [h2, if_neg (by simp), hnoleg, if_neg (by simp)]
    rw [show pyStrOrEmpty (.str s) = s from rfl]
    rw [execute_intent_no_owner tm s _ _ howner]
    have h3 : (("unsupported_intent: " ++ s != "")
        && !strStartsWith ("unsupported_intent: " ++ s) "unhandled_intent") = true := by
      rw [show (("unsupported_intent: " ++ s) != "") = true from rfl]
      rw [show strStartsWith ("unsupported_intent: " ++ s) "unhandled_intent"
          = false from rfl]
      rfl
    simp only [h3, if_true]
  rw [TaskExecutor.execute, hne, hcont]
  simp only [Bool.not_true, Bool.or_false, Bool.false_or, if_false, hint,
    Bool.false_eq_true, Option.getD_some]
  cases htc0 : dictGet? intent_data "tool_call" with
  | none => exact hbranch
  | some tc =>
    have hf := htc tc htc0
    simp only [hf, Bool.false_eq_true, if_false]
    exact hbranch

/-- Witness for the amended C1 on the concrete unhandled record. -/
theorem final_catch_all_returns_registry_result_witness :
    TaskExecutor.execute emptyRegistry demoLegacy c1Record
      = ⟨"unsupported_intent: play_music", []⟩ :=
  final_catch_all_returns_registry_result emptyRegistry demoLegacy c1Record
    "play_music" rfl rfl
    (by
      intro tc h
      rw [show dictGet? c1Record "tool_call" = none from rfl] at h
      cases h)
    rfl (by decide)

end Addy
